import Mathlib

/- Shallow embedding of the streaming chat client in
   src/src/components/Chat.jsx: the text-normalization pipeline
   `preprocessText` (lines 7-113), the inline server-sent-events frame
   decoding of `handleSendMessage` (lines 268-302), and the cancellation
   handler `handleCancel` (lines 335-353).

   Strings are modelled as Lean `String` (lists of characters); every
   JavaScript regex of the pipeline is embedded as a hand-specialized
   matcher with the exact leftmost-match, lazy/greedy and word-boundary
   semantics of `String.prototype.replace` with the `g` flag. -/

/-- JavaScript word-character class `\w`: ASCII letters, digits, underscore. -/
def isWordChar (c : Char) : Bool :=
  c.isAlpha || c.isDigit || c = '_'

/-- JavaScript whitespace class `\s` (its ASCII part). -/
def jsSpace (c : Char) : Bool :=
  c = ' ' || c = '\t' || c = '\n' || c = '\r' || c = '\x0b' || c = '\x0c'

/-- The `String.prototype.trim` method: strip whitespace from both ends. -/
def jsTrim (s : String) : String :=
  ⟨((s.data.dropWhile jsSpace).reverse.dropWhile jsSpace).reverse⟩

/-- The `String.prototype.slice(n)` method on ASCII text: drop the first `n` characters. -/
def strDrop (s : String) (n : Nat) : String := ⟨s.data.drop n⟩

def isPrefixL : List Char → List Char → Bool
  | [], _ => true
  | _ :: _, [] => false
  | a :: la, b :: lb => a = b && isPrefixL la lb

/-- The `String.prototype.startsWith` test. -/
def strStarts (s pre : String) : Bool := isPrefixL pre.data s.data

def occursL (pat : List Char) : List Char → Bool
  | [] => isPrefixL pat []
  | c :: rest => isPrefixL pat (c :: rest) || occursL pat rest

/-- Does `pat` occur as a contiguous substring of `s`? -/
def strOccurs (pat s : String) : Bool := occursL pat.data s.data

/- ## The placeholder table and the global-replace scanner -/

/-- The `latexPlaceholders` array of `preprocessText` (Chat.jsx line 18). -/
abbrev Tbl := List String

/-- Result of a match attempt at the current position: replacement text,
last consumed source character, remaining source, updated placeholder
table. -/
abbrev MRes := List Char × Option Char × List Char × Tbl

/-- A match attempt, given the placeholder table and the character directly
before the current position (`none` at the start of the string). -/
abbrev Matcher := Tbl → Option Char → List Char → Option MRes

/-- Left-to-right global replacement, as performed by
`String.prototype.replace` with the `g` flag: attempt a match at each
position, on success emit the replacement and continue after the matched
source text, otherwise copy one character. Matching always happens on the
source text, never on emitted replacements. `fuel` bounds the recursion; it
is the input length at the call site, which suffices because every matcher
of this file consumes at least one character on success. -/
def scanAux (m : Matcher) : Nat → Tbl → Option Char → List Char → List Char × Tbl
  | _, tbl, _, [] => ([], tbl)
  | 0, tbl, _, l => (l, tbl)
  | fuel + 1, tbl, prev, c :: rest =>
    match m tbl prev (c :: rest) with
    | some (rep, prev2, rest2, tbl2) =>
      let r := scanAux m fuel tbl2 prev2 rest2
      (rep ++ r.1, r.2)
    | none =>
      let r := scanAux m fuel tbl (some c) rest
      (c :: r.1, r.2)

/-- Run one global-replace pass over the text, threading the table. -/
def runM (m : Matcher) (st : String × Tbl) : String × Tbl :=
  let r := scanAux m st.1.data.length st.2 none st.1.data
  (⟨r.1⟩, r.2)

/-- Word boundary `\b` before a word character, given the previous char. -/
def boundaryBefore : Option Char → Bool
  | none => true
  | some c => !isWordChar c

/-- Word boundary `\b` after a word character, given the following text. -/
def boundaryAfter : List Char → Bool
  | [] => true
  | c :: _ => !isWordChar c

/-- Multiline `^`: start of input or directly after a line terminator. -/
def atLineStart : Option Char → Bool
  | none => true
  | some c => c = '\n' || c = '\r'

/-- Dot of a JavaScript regex without the `s` flag: not a line terminator. -/
def notLineBreak (c : Char) : Bool := c != '\n' && c != '\r'

/- ## The individual replace passes of preprocessText, in source order -/

/-- Chat.jsx line 11: `/\b(\w)\s+(\w)\s+(\w)\b/g` replaced by `"$1$2$3"`
(merge exactly three space-separated single word characters). -/
def tryDefrag : Matcher := fun tbl prev l =>
  if boundaryBefore prev then
    match l with
    | a :: r1 =>
      if isWordChar a && !(r1.takeWhile jsSpace).isEmpty then
        match r1.dropWhile jsSpace with
        | b :: r3 =>
          if isWordChar b && !(r3.takeWhile jsSpace).isEmpty then
            match r3.dropWhile jsSpace with
            | c :: r5 =>
              if isWordChar c && boundaryAfter r5 then
                some ([a, b, c], some c, r5, tbl)
              else none
            | [] => none
          else none
        | [] => none
      else none
    | [] => none
  else none

/-- A literal word followed by a word boundary, as in `(then|so)\b`;
returns the text after the word. -/
def matchWordLit (w : List Char) (l : List Char) : Option (List Char) :=
  if isPrefixL w l then
    let r := l.drop w.length
    if boundaryAfter r then some r else none
  else none

/-- Chat.jsx line 12: `/,\s*(then|so)\b/g` replaced by `"$1"`. -/
def tryCommaConj : Matcher := fun tbl _ l =>
  match l with
  | ',' :: r1 =>
    let r2 := r1.dropWhile jsSpace
    match matchWordLit "then".data r2 with
    | some r3 => some ("then".data, some 'n', r3, tbl)
    | none =>
      match matchWordLit "so".data r2 with
      | some r3 => some ("so".data, some 'o', r3, tbl)
      | none => none
  | _ => none

/-- Chat.jsx line 15: `/\r\n|\r/g` replaced by `"\n"`. -/
def tryLineEnd : Matcher := fun tbl _ l =>
  match l with
  | '\r' :: '\n' :: r => some (['\n'], some '\n', r, tbl)
  | '\r' :: r => some (['\n'], some '\r', r, tbl)
  | _ => none

/-- Split at the first occurrence of `$$`: the lazy body of
`/\$\$[\s\S]*?\$\$/`. -/
def findDD : List Char → Option (List Char × List Char)
  | '$' :: '$' :: r => some ([], r)
  | c :: r => (findDD r).map (fun p => (c :: p.1, p.2))
  | [] => none

/-- The math-span alternation `/\$\$[\s\S]*?\$\$|\$[^\$]*?\$/` tried at the
current position; returns the matched span and the rest. When the first
alternative fails for lack of a closing `$$`, the second still matches the
two adjacent dollars as an empty single-delimited span. The lazy `[^\$]*?`
body runs to the first following dollar, so the second alternative succeeds
exactly when one exists. -/
def matchDollarSpan (l : List Char) : Option (List Char × List Char) :=
  if isPrefixL ['$', '$'] l then
    (match findDD (l.drop 2) with
     | some (content, rest) =>
       some ('$' :: '$' :: (content ++ ['$', '$']), rest)
     | none => some (['$', '$'], l.drop 2))
  else if isPrefixL ['$'] l then
    if ((l.drop 1).dropWhile (fun c => c != '$')).isEmpty then none
    else some ('$' :: ((l.drop 1).takeWhile (fun c => c != '$') ++ ['$']),
      ((l.drop 1).dropWhile (fun c => c != '$')).tail)
  else none

/-- The indexed token `__LATEX_k__` inserted for table slot `k`. -/
def latexToken (k : Nat) : List Char := ("__LATEX_" ++ toString k ++ "__").data

/-- Chat.jsx lines 19-22, math protection pass A: each math span is pushed
onto the placeholder table and replaced by its indexed token. -/
def tryProtectMath : Matcher := fun tbl _ l =>
  match matchDollarSpan l with
  | some (span, rest) =>
    some (latexToken tbl.length, span.getLast?, rest, tbl ++ [⟨span⟩])
  | none => none

/-- Chat.jsx lines 25-28, math protection pass B:
`/=\s*([^\$]*?)\$\$/g`, the content re-wrapped as `$content$` in the table
and the match replaced by `"= __LATEX_k__"`. -/
def tryMalformed : Matcher := fun tbl _ l =>
  match l with
  | '=' :: r1 =>
    if isPrefixL ['$', '$'] ((r1.dropWhile jsSpace).dropWhile (fun c => c != '$')) then
      some ('=' :: ' ' :: latexToken tbl.length, some '$',
        ((r1.dropWhile jsSpace).dropWhile (fun c => c != '$')).drop 2,
        tbl ++ [⟨'$' :: ((r1.dropWhile jsSpace).takeWhile (fun c => c != '$') ++ ['$'])⟩])
    else none
  | _ => none

/-- One optional brace group `(?:{[^{}]*})?`: returns the consumed text
(possibly empty) and the rest. -/
def tryBraceGroup (l : List Char) : List Char × List Char :=
  match l with
  | c :: r =>
    if c = '\x7b' then
      match r.dropWhile (fun d => d != '\x7b' && d != '\x7d') with
      | d :: r2 =>
        if d = '\x7d' then
          ('\x7b' :: (r.takeWhile (fun e => e != '\x7b' && e != '\x7d') ++ ['\x7d']), r2)
        else ([], l)
      | [] => ([], l)
    else ([], l)
  | [] => ([], l)

def mathCommands : List (List Char) :=
  ["frac".data, "int".data, "pi".data, "psi".data, "le".data, "ge".data]

def firstWordMatch (ws : List (List Char)) (l : List Char) : Option (List Char × List Char) :=
  match ws with
  | [] => none
  | w :: rest =>
    match matchWordLit w l with
    | some r => some (w, r)
    | none => firstWordMatch rest l

/-- Chat.jsx lines 31-37, bare-command protection:
`/\\(frac|int|pi|psi|le|ge)\b(?:{[^{}]*})?(?:{[^{}]*})?/g`, the whole match
wrapped as `$...$` in the table. -/
def tryCommands : Matcher := fun tbl _ l =>
  match l with
  | '\\' :: r =>
    match firstWordMatch mathCommands r with
    | some (w, r2) =>
      let g1 := tryBraceGroup r2
      let g2 := tryBraceGroup g1.2
      let matched : List Char := '\\' :: (w ++ g1.1 ++ g2.1)
      some (latexToken tbl.length, matched.getLast?, g2.2,
        tbl ++ [⟨'$' :: (matched ++ ['$'])⟩])
    | none => none
  | _ => none

/-- A `\{([^}]*)\}` group: returns the interior and the rest. -/
def matchBracedGroup (l : List Char) : Option (List Char × List Char) :=
  match l with
  | c :: r =>
    if c = '\x7b' then
      match r.dropWhile (fun d => d != '\x7d') with
      | _ :: r2 => some (r.takeWhile (fun d => d != '\x7d'), r2)
      | [] => none
    else none
  | [] => none

/-- Chat.jsx lines 40-46, quantum-pattern protection:
`/\b(u|du|dx)\s*\\frac\{([^}]*)\}\{([^}]*)\}/g`, rebuilt in the table as
`$var \frac{num}{denom}$`. -/
def tryQM : Matcher := fun tbl prev l =>
  if boundaryBefore prev then
    match (if isPrefixL "u".data l then some ("u".data, l.drop 1)
      else if isPrefixL "du".data l then some ("du".data, l.drop 2)
      else if isPrefixL "dx".data l then some ("dx".data, l.drop 2)
      else none) with
    | some (v, r1) =>
      let r2 := r1.dropWhile jsSpace
      if isPrefixL "\\frac".data r2 then
        match matchBracedGroup (r2.drop 5) with
        | some (num, r4) =>
          match matchBracedGroup r4 with
          | some (den, r6) =>
            some (latexToken tbl.length, some '\x7d', r6,
              tbl ++ [⟨'$' :: (v ++ " \\frac\x7b".data ++ num ++ ['\x7d', '\x7b'] ++ den ++ ['\x7d', '$'])⟩])
          | none => none
        | none => none
      else none
    | none => none
  else none

/-- Lazy search for the body of `/(\*\*[^\*]+?)(:|\?)\s*(\*\*)/` after the
opening `**`: the shortest nonempty star-free group followed by `:` or `?`,
optional whitespace and a closing `**`. Returns (group, punctuation, rest
after the closing marker). -/
def boldSearch (acc : List Char) : List Char → Option (List Char × Char × List Char)
  | [] => none
  | c :: rest =>
    if c = '*' then none
    else if (c = ':' || c = '?') && !acc.isEmpty then
      let r2 := rest.dropWhile jsSpace
      if isPrefixL "**".data r2 then some (acc.reverse, c, r2.drop 2)
      else boldSearch (c :: acc) rest
    else boldSearch (c :: acc) rest

/-- Chat.jsx lines 49-52: `/(\*\*[^\*]+?)(:|\?)\s*(\*\*)/g` replaced by
`"$1$2$3"` (drop the stray spaces before the closing bold marker). -/
def tryBold : Matcher := fun tbl _ l =>
  match l with
  | '*' :: '*' :: r =>
    match boldSearch [] r with
    | some (g, punct, rest) =>
      some ('*' :: '*' :: (g ++ [punct, '*', '*']), some '*', rest, tbl)
    | none => none
  | _ => none

/-- The `\d+\.\s` lookahead alternative. -/
def digitsDotSpace (l : List Char) : Bool :=
  if (l.takeWhile Char.isDigit).isEmpty then false
  else
    match l.dropWhile Char.isDigit with
    | '.' :: c :: _ => jsSpace c
    | _ => false

/-- Negative-lookahead body of Chat.jsx line 55: `\n|[*+]\s|\d+\.\s|#`. -/
def lookaheadA (l : List Char) : Bool :=
  match l with
  | [] => false
  | c :: rest =>
    c = '\n'
      || ((c = '*' || c = '+') && (match rest with | d :: _ => jsSpace d | [] => false))
      || digitsDotSpace l
      || c = '#'

/-- Chat.jsx lines 54-57: `/([^\n])\n(?!\n|[*+]\s|\d+\.\s|#)/g` replaced by
`"$1 "` (first soft line-break join). -/
def trySoftJoinA : Matcher := fun tbl _ l =>
  match l with
  | c :: '\n' :: r =>
    if c != '\n' && !lookaheadA r then some ([c, ' '], some '\n', r, tbl)
    else none
  | _ => none

/-- Chat.jsx lines 60-63: `/(:)\s*(\$\$[\s\S]*?\$\$|\$[^\$]*?\$)/g` replaced
by `"$1\n$2"` (line break between a colon and a math span). -/
def tryMathColon : Matcher := fun tbl _ l =>
  match l with
  | ':' :: r1 =>
    match matchDollarSpan (r1.dropWhile jsSpace) with
    | some (span, rest) => some (':' :: '\n' :: span, span.getLast?, rest, tbl)
    | none => none
  | _ => none

/-- Try `\s*([.:])\s*` at the current position, for the URL pass; returns
(punctuation, last consumed char, rest). -/
def urlPunctHere (l : List Char) : Option (Char × Char × List Char) :=
  match l.dropWhile jsSpace with
  | p :: r3 =>
    if p = '.' || p = ':' then
      some (p, ((r3.takeWhile jsSpace).getLast?).getD p, r3.dropWhile jsSpace)
    else none
  | [] => none

/-- Lazy search for `[^\s<]*?\s*([.:])\s*`: at each prefix of non-space,
non-`<` characters, first try the punctuation tail, else extend by one
character. Returns (url body, punctuation, last consumed char, rest). -/
def urlSearch (acc : List Char) : List Char → Option (List Char × Char × Char × List Char)
  | [] => none
  | c :: rest =>
    match urlPunctHere (c :: rest) with
    | some (p, lastc, r) => some (acc.reverse, p, lastc, r)
    | none =>
      if !jsSpace c && c != '<' then urlSearch (c :: acc) rest else none

/-- Chat.jsx lines 66-69: `/(https?:\/\/[^\s<]*?)\s*([.:])\s*/g` with the
match rewritten to url ++ punctuation (spaces removed). -/
def tryUrl : Matcher := fun tbl _ l =>
  match (if isPrefixL "https://".data l then some ("https://".data, l.drop 8)
    else if isPrefixL "http://".data l then some ("http://".data, l.drop 7)
    else none) with
  | some (proto, r) =>
    match urlSearch [] r with
    | some (url, punct, lastc, rest) =>
      some (proto ++ url ++ [punct], some lastc, rest, tbl)
    | none => none
  | none => none

/-- Chat.jsx lines 72 and 110: `/\n{3,}/g` replaced by `"\n\n"`. -/
def tryCollapse : Matcher := fun tbl _ l =>
  match l with
  | '\n' :: '\n' :: '\n' :: r =>
    some (['\n', '\n'], some '\n', r.dropWhile (fun c => c = '\n'), tbl)
  | _ => none

/-- Is an indexed token `__LATEX_\d+__` at the current position? -/
def latexTokenAt (l : List Char) : Bool :=
  if isPrefixL "__LATEX_".data l then
    let r := l.drop 8
    !(r.takeWhile Char.isDigit).isEmpty
      && isPrefixL "__".data (r.dropWhile Char.isDigit)
  else false

def connectives : List (List Char) :=
  ["Let".data, "When".data, "Therefore".data, "If".data, "Then".data]

def anyWordLit (ws : List (List Char)) (l : List Char) : Bool :=
  match ws with
  | [] => false
  | w :: rest => (matchWordLit w l).isSome || anyWordLit rest l

/-- Negative-lookahead body of Chat.jsx line 76:
`\n|[-*+]\s*(__LATEX_\d+__)?|\d+\.\s|#|\s*__LATEX_\d+__|\b(Let|When|Therefore|If|Then)\b|[.,:;]$`.
The `[-*+]\s*(__LATEX_\d+__)?` alternative already succeeds on the list
marker alone, because both suffixes may be empty; `$` has no `m` flag here,
so it is end of input or a final line terminator. -/
def lookaheadB (l : List Char) : Bool :=
  match l with
  | [] => false
  | c :: rest =>
    c = '\n' || c = '-' || c = '*' || c = '+'
      || digitsDotSpace l
      || c = '#'
      || latexTokenAt (l.dropWhile jsSpace)
      || anyWordLit connectives l
      || ((c = '.' || c = ',' || c = ':' || c = ';') && (rest.isEmpty || rest == ['\n']))

/-- Chat.jsx lines 75-78: the second soft line-break join. -/
def trySoftJoinB : Matcher := fun tbl _ l =>
  match l with
  | c :: '\n' :: r =>
    if c != '\n' && !lookaheadB r then some ([c, ' '], some '\n', r, tbl)
    else none
  | _ => none

/-- Chat.jsx line 85: `/^(#+.*)$/gm` replaced by `"\n\n$1\n\n"`. -/
def tryHeadings : Matcher := fun tbl prev l =>
  if atLineStart prev then
    match l with
    | '#' :: _ =>
      let line := l.takeWhile notLineBreak
      some ('\n' :: '\n' :: (line ++ ['\n', '\n']), line.getLast?,
        l.dropWhile notLineBreak, tbl)
    | _ => none
  else none

/-- Chat.jsx line 87: `/([-*+]\s.*)\n\n(?![-*+\d])/g` replaced by
`"$1\n\n\n"`. -/
def tryListSpacing : Matcher := fun tbl _ l =>
  match l with
  | m :: s :: r =>
    if (m = '-' || m = '*' || m = '+') && jsSpace s then
      match r.dropWhile notLineBreak with
      | '\n' :: '\n' :: r3 =>
        if (match r3 with
            | [] => true
            | d :: _ => !(d = '-' || d = '*' || d = '+' || d.isDigit)) then
          some (m :: s :: (r.takeWhile notLineBreak ++ ['\n', '\n', '\n']),
            some '\n', r3, tbl)
        else none
      | _ => none
    else none
  | _ => none

/-- Literal global replacement (used for Chat.jsx lines 90-97). -/
def tryLit (pat rep : List Char) : Matcher := fun tbl _ l =>
  if !pat.isEmpty && isPrefixL pat l then
    some (rep, pat.getLast?, l.drop pat.length, tbl)
  else none

def phraseA : List Char := "Dividing by $A e^\x7bi(kx \\omega t)\x7d$:".data

def phraseB : List Char := "Dividing by $A e^\x7bi(kx - \\omega t)\x7d$:".data

def phraseRep : List Char := "**Dividing by $A e^\x7bi(kx - \\omega t)\x7d$:**".data

def natOfDigits (ds : List Char) : Nat :=
  ds.foldl (fun a c => a * 10 + (c.toNat - 48)) 0

/-- Chat.jsx line 100, placeholder restoration: `/__LATEX_(\d+)__/g` with the
callback `latexPlaceholders[index]`. JavaScript array lookup uses the
captured index string as a property key, so a non-canonical (leading-zero)
or out-of-range index reads an absent slot, and the callback result
`undefined` is spliced in as the string `"undefined"`. -/
def tryRestore : Matcher := fun tbl _ l =>
  if isPrefixL "__LATEX_".data l then
    let r := l.drop 8
    let ds := r.takeWhile Char.isDigit
    match r.dropWhile Char.isDigit with
    | '_' :: '_' :: r3 =>
      if ds.isEmpty then none
      else
        let val :=
          if ds.head? = some '0' && ds != ['0'] then "undefined"
          else tbl.getD (natOfDigits ds) "undefined"
        some (val.data, some '_', r3, tbl)
    | _ => none
  else none

/-- Inline span `/\$[^\$]+\$/` at the current position (nonempty interior). -/
def matchInlineSpan : List Char → Option (List Char × List Char)
  | '$' :: r =>
    if (r.takeWhile (fun c => c != '$')).isEmpty then none
    else
      (match r.dropWhile (fun c => c != '$') with
       | '$' :: r3 => some ('$' :: (r.takeWhile (fun c => c != '$') ++ ['$']), r3)
       | _ => none)
  | _ => none

/-- Chat.jsx line 103: `/(\$[^\$]+\$)\s*([^\s\$])/g` replaced by `"$1 $2"`. -/
def trySpaceAfter : Matcher := fun tbl _ l =>
  match matchInlineSpan l with
  | some (span, r) =>
    (match r.dropWhile jsSpace with
     | d :: r2 =>
       if d != '$' then some (span ++ [' ', d], some d, r2, tbl) else none
     | [] => none)
  | none => none

/-- Chat.jsx line 104: `/([^\s\$])\s*(\$[^\$]+\$)/g` replaced by `"$1 $2"`. -/
def trySpaceBefore : Matcher := fun tbl _ l =>
  match l with
  | c :: r =>
    if !jsSpace c && c != '$' then
      match matchInlineSpan (r.dropWhile jsSpace) with
      | some (span, rest) => some (c :: ' ' :: span, some '$', rest, tbl)
      | none => none
    else none
  | [] => none

/-- Chat.jsx line 107: `/^(\$\$.*\$\$)$/gm` replaced by `"\n$1\n"`. -/
def tryDisplayIso : Matcher := fun tbl prev l =>
  if atLineStart prev then
    let line := l.takeWhile notLineBreak
    if 4 ≤ line.length && isPrefixL "$$".data line && isPrefixL "$$".data line.reverse then
      some ('\n' :: (line ++ ['\n']), line.getLast?, l.dropWhile notLineBreak, tbl)
    else none
  else none

/- ## The pipeline -/

def stepDefrag (st : String × Tbl) : String × Tbl := runM tryDefrag st

def stepCommaConj (st : String × Tbl) : String × Tbl := runM tryCommaConj st

def stepLineEnd (st : String × Tbl) : String × Tbl := runM tryLineEnd st

def stepProtectMath (st : String × Tbl) : String × Tbl := runM tryProtectMath st

def stepMalformed (st : String × Tbl) : String × Tbl := runM tryMalformed st

def stepCommands (st : String × Tbl) : String × Tbl := runM tryCommands st

def stepQM (st : String × Tbl) : String × Tbl := runM tryQM st

def stepBold (st : String × Tbl) : String × Tbl := runM tryBold st

def stepSoftJoinA (st : String × Tbl) : String × Tbl := runM trySoftJoinA st

def stepMathColon (st : String × Tbl) : String × Tbl := runM tryMathColon st

def stepUrl (st : String × Tbl) : String × Tbl := runM tryUrl st

def stepCollapse (st : String × Tbl) : String × Tbl := runM tryCollapse st

def stepSoftJoinB (st : String × Tbl) : String × Tbl := runM trySoftJoinB st

def stepTrim (st : String × Tbl) : String × Tbl := (jsTrim st.1, st.2)

def stepHeadings (st : String × Tbl) : String × Tbl := runM tryHeadings st

def stepListSpacing (st : String × Tbl) : String × Tbl := runM tryListSpacing st

def stepPhraseA (st : String × Tbl) : String × Tbl := runM (tryLit phraseA phraseRep) st

def stepPhraseB (st : String × Tbl) : String × Tbl := runM (tryLit phraseB phraseRep) st

def stepRestore (st : String × Tbl) : String × Tbl := runM tryRestore st

def stepSpaceAfter (st : String × Tbl) : String × Tbl := runM trySpaceAfter st

def stepSpaceBefore (st : String × Tbl) : String × Tbl := runM trySpaceBefore st

def stepDisplayIso (st : String × Tbl) : String × Tbl := runM tryDisplayIso st

/-- The function `preprocessText` (Chat.jsx lines 7-113): the whole normalization
pipeline, every replace pass applied in source order with one shared
placeholder table per call. Empty input returns the empty string (line 8). -/
def preprocessText (text : String) : String :=
  if text = "" then ""
  else
    let s1 := stepDefrag (text, [])
    let s2 := stepCommaConj s1
    let s3 := stepLineEnd s2
    let s4 := stepProtectMath s3
    let s5 := stepMalformed s4
    let s6 := stepCommands s5
    let s7 := stepQM s6
    let s8 := stepBold s7
    let s9 := stepSoftJoinA s8
    let s10 := stepMathColon s9
    let s11 := stepUrl s10
    let s12 := stepCollapse s11
    let s13 := stepSoftJoinB s12
    let s14 := stepTrim s13
    let s15 := stepHeadings s14
    let s16 := stepListSpacing s15
    let s17 := stepPhraseA s16
    let s18 := stepPhraseB s17
    let s19 := stepRestore s18
    let s20 := stepSpaceAfter s19
    let s21 := stepSpaceBefore s20
    let s22 := stepDisplayIso s21
    let s23 := stepCollapse s22
    s23.1

/-- Extension of `preprocessText` to a possibly-undefined argument: Chat.jsx line 8
(`if (!text) return ""`) maps an absent value to the empty string. -/
def preprocessTextOpt : Option String → String
  | none => ""
  | some s => preprocessText s

/- ## The frame decoder of handleSendMessage -/

/-- The loop body of Chat.jsx lines 283-290 for one split segment: trim the
frame, require the `data:` marker, strip it, trim again, and drop the
`[DONE]` sentinel. Returns the payload appended to `accumulatedContent`, if
any. -/
def frameToPayload (part : String) : Option String :=
  let trimmed := jsTrim part
  if strStarts trimmed "data:" then
    let data := jsTrim (strDrop trimmed 5)
    if data = "[DONE]" then none else some data
  else none

/-- JavaScript `split` on the blank-line separator: cut at every non-overlapping occurrence of the
blank-line separator, scanning left to right. Always returns at least one
(possibly empty) segment, like the JavaScript method. -/
def splitBlank : List Char → List (List Char)
  | '\n' :: '\n' :: r => [] :: splitBlank r
  | c :: r =>
    (match splitBlank r with
     | h :: t => (c :: h) :: t
     | [] => [[c]])
  | [] => [[]]

/-- Chat.jsx lines 278-281: append the chunk to the residual buffer, split on
the blank-line boundary, all but the last segment are complete frames and
the last segment is the new residual (`parts.pop() || ""`). -/
def extractFrames (buf chunk : String) : List String × String :=
  let parts := (splitBlank (buf ++ chunk).data).map (fun l => (⟨l⟩ : String))
  (parts.dropLast, (parts.getLast?).getD "")

/-- One `feed` of the decoder: the payloads emitted for a chunk, in order,
and the new residual buffer. -/
def feedPayloads (buf chunk : String) : List String × String :=
  let fr := extractFrames buf chunk
  (fr.1.filterMap frameToPayload, fr.2)

/-- Chat.jsx lines 277-302, one loop iteration on the state
(accumulatedContent, buffer): every emitted payload is appended to the
accumulated content followed by one newline. -/
def processChunk (st : String × String) (chunk : String) : String × String :=
  let fr := extractFrames st.2 chunk
  (fr.1.foldl (fun acc part =>
      match frameToPayload part with
      | some d => acc ++ d ++ "\n"
      | none => acc) st.1,
   fr.2)

/-- The whole receive loop on a list of decoded chunks, starting from the
empty accumulated content and empty residual buffer. -/
def feedChunks (chunks : List String) : String × String :=
  chunks.foldl processChunk ("", "")

def allPayloadsAux : String → List String → List String
  | _, [] => []
  | buf, c :: cs =>
    let fr := feedPayloads buf c
    fr.1 ++ allPayloadsAux fr.2 cs

/-- All payloads emitted over a list of chunks, in arrival order. -/
def allPayloads (chunks : List String) : List String := allPayloadsAux "" chunks

/-- Newline-terminated concatenation of a payload list. -/
def joinPayloads : List String → String
  | [] => ""
  | p :: ps => p ++ "\n" ++ joinPayloads ps

/- ## Messages and cancellation -/

/-- A conversation message (Chat.jsx message objects). -/
structure Message where
  role : String
  content : String
  isWebSearch : Bool
  timestamp : String
deriving DecidableEq, Repr

/-- The handler `handleCancel` (Chat.jsx lines 335-353), restricted to its effect on the
message list: if the last message is an assistant message with
whitespace-only content it is removed, otherwise the cancellation marker is
appended to its content; anything else is left unchanged. -/
def handleCancel (ms : List Message) : List Message :=
  match ms.getLast? with
  | none => ms
  | some last =>
    if last.role = "assistant" then
      if jsTrim last.content = "" then ms.dropLast
      else ms.dropLast ++ [{ last with content := last.content ++ "\n\n[Generation cancelled]" }]
    else ms

/- ## Supporting lemmas -/

lemma digitChar_isDigit {m : Nat} (h : m < 10) : (Nat.digitChar m).isDigit = true := by
  interval_cases m <;> decide

lemma toDigitsCore_mem (f : Nat) : ∀ (n : Nat) (acc : List Char) (c : Char),
    c ∈ Nat.toDigitsCore 10 f n acc → c ∈ acc ∨ c.isDigit = true := by
  induction f with
  | zero => intro n acc c h; exact Or.inl h
  | succ f ih =>
    intro n acc c h
    simp only [Nat.toDigitsCore] at h
    by_cases hd : n / 10 = 0
    · rw [if_pos hd] at h
      rcases List.mem_cons.mp h with h | h
      · exact Or.inr (h ▸ digitChar_isDigit (Nat.mod_lt _ (by decide)))
      · exact Or.inl h
    · rw [if_neg hd] at h
      rcases ih (n / 10) _ c h with h | h
      · rcases List.mem_cons.mp h with h | h
        · exact Or.inr (h ▸ digitChar_isDigit (Nat.mod_lt _ (by decide)))
        · exact Or.inl h
      · exact Or.inr h

lemma repr_no_dollar (k : Nat) : '$' ∉ (Nat.repr k).data := by
  intro h
  have e : (Nat.repr k).data = Nat.toDigitsCore 10 (k + 1) k [] := rfl
  rw [e] at h
  rcases toDigitsCore_mem (k + 1) k [] '$' h with h | h
  · exact absurd h (List.not_mem_nil _)
  · exact absurd h (by decide)

lemma latexToken_no_dollar (k : Nat) : '$' ∉ latexToken k := by
  unfold latexToken
  intro h
  rw [String.data_append, String.data_append] at h
  rcases List.mem_append.mp h with h | h
  · rcases List.mem_append.mp h with h | h
    · exact absurd h (by decide)
    · exact repr_no_dollar k h
  · exact absurd h (by decide)

lemma findDD_eq : ∀ (l : List Char) {content rest : List Char},
    findDD l = some (content, rest) → l = content ++ '$' :: '$' :: rest := by
  intro l
  induction l with
  | nil => intro c r h; simp [findDD] at h
  | cons a t ih =>
    intro c r h
    rw [findDD.eq_def] at h
    split at h
    · rename_i x2 r2 heq
      simp only [Option.some.injEq, Prod.mk.injEq] at h
      obtain ⟨h1, h2⟩ := h
      subst h1; subst h2
      simpa using heq
    · rename_i x1 c2 r2 hne heq
      simp only [Option.map_eq_some'] at h
      obtain ⟨⟨p1, p2⟩, hf, he⟩ := h
      injection heq with ha ht
      subst ha; subst ht
      simp only [Prod.mk.injEq] at he
      obtain ⟨h1, h2⟩ := he
      subst h1; subst h2
      simp [ih hf]
    · exact absurd h (by simp)

lemma isPrefixL_eq_append : ∀ (p l : List Char), isPrefixL p l = true → l = p ++ l.drop p.length := by
  intro p
  induction p with
  | nil => intro l _; simp
  | cons a p ih =>
    intro l h
    cases l with
    | nil => simp [isPrefixL] at h
    | cons b t =>
      simp only [isPrefixL, Bool.and_eq_true, decide_eq_true_eq] at h
      obtain ⟨h1, h2⟩ := h
      subst h1
      simpa using ih t h2

lemma dropWhileNeDollar_shape (r : List Char) :
    r.dropWhile (fun c => c != '$') = [] ∨
      ∃ t, r.dropWhile (fun c => c != '$') = '$' :: t := by
  induction r with
  | nil => exact Or.inl rfl
  | cons a t ih =>
    by_cases ha : a = '$'
    · subst ha
      right
      exact ⟨t, by simp [List.dropWhile_cons]⟩
    · simpa [List.dropWhile_cons, ha] using ih

lemma takeDropNeDollar (r t : List Char)
    (hd : r.dropWhile (fun c => c != '$') = '$' :: t) :
    r.takeWhile (fun c => c != '$') ++ '$' :: t = r := by
  conv_rhs => rw [← List.takeWhile_append_dropWhile (fun c => c != '$') r]
  rw [hd]

lemma matchDollarSpan_decomp : ∀ {l span rest : List Char},
    matchDollarSpan l = some (span, rest) → l = span ++ rest ∧ span ≠ [] := by
  intro l span rest h
  unfold matchDollarSpan at h
  by_cases h2 : isPrefixL ['$', '$'] l = true
  · rw [if_pos h2] at h
    have hl := isPrefixL_eq_append _ l h2
    cases hdd : findDD (l.drop 2) with
    | some p =>
      obtain ⟨content, r2⟩ := p
      rw [hdd] at h
      simp only [Option.some.injEq, Prod.mk.injEq] at h
      obtain ⟨hs, hr⟩ := h
      subst hs; subst hr
      refine ⟨?_, by simp⟩
      have hl2 : l = '$' :: '$' :: l.drop 2 := by simpa using hl
      rw [hl2, findDD_eq _ hdd]
      simp
    | none =>
      rw [hdd] at h
      simp only [Option.some.injEq, Prod.mk.injEq] at h
      obtain ⟨hs, hr⟩ := h
      subst hs; subst hr
      exact ⟨by simpa using hl, by simp⟩
  · rw [if_neg h2] at h
    by_cases h1 : isPrefixL ['$'] l = true
    · rw [if_pos h1] at h
      have hl := isPrefixL_eq_append _ l h1
      rcases dropWhileNeDollar_shape (l.drop 1) with hd | ⟨t, hd⟩
      · rw [hd] at h; simp at h
      · rw [hd] at h
        simp only [List.isEmpty_cons, Bool.false_eq_true, if_false,
          Option.some.injEq, Prod.mk.injEq, List.tail_cons] at h
        obtain ⟨hs, hr⟩ := h
        subst hs; subst hr
        refine ⟨?_, by simp⟩
        have hl2 : l = '$' :: l.drop 1 := by simpa using hl
        conv_lhs => rw [hl2]
        simp only [List.cons_append, List.append_assoc, List.singleton_append,
          List.nil_append]
        rw [takeDropNeDollar _ _ hd]
    · rw [if_neg h1] at h; simp at h

lemma matchDollarSpan_none_no_dollar : ∀ {l : List Char}, '$' ∉ l →
    matchDollarSpan l = none := by
  intro l h
  unfold matchDollarSpan
  cases l with
  | nil => simp [isPrefixL]
  | cons a t =>
    have ha : a ≠ '$' := fun he => h (he ▸ List.mem_cons_self a t)
    have hp1 : isPrefixL ['$'] (a :: t) = false := by
      simp [isPrefixL, Ne.symm ha]
    have hp2 : isPrefixL ['$', '$'] (a :: t) = false := by
      simp [isPrefixL, Ne.symm ha]
    rw [hp2, hp1]
    simp

lemma matchDollarSpan_cons_none : ∀ {r : List Char},
    matchDollarSpan ('$' :: r) = none → '$' ∉ r := by
  intro r h hmem
  unfold matchDollarSpan at h
  by_cases h2 : isPrefixL ['$', '$'] ('$' :: r) = true
  · rw [if_pos h2] at h
    cases hdd : findDD (('$' :: r).drop 2) with
    | some p => rw [hdd] at h; simp at h
    | none => rw [hdd] at h; simp at h
  · rw [if_neg h2] at h
    have h1 : isPrefixL ['$'] ('$' :: r) = true := by simp [isPrefixL]
    rw [if_pos h1] at h
    rcases dropWhileNeDollar_shape (('$' :: r).drop 1) with hd | ⟨t, hd⟩
    · simp only [List.drop_succ_cons, List.drop_zero] at hd
      have := List.dropWhile_eq_nil_iff.mp hd '$' hmem
      simp at this
    · rw [hd] at h
      simp at h

lemma scanAux_id (m : Matcher) : ∀ (fuel : Nat) (tbl : Tbl) (prev : Option Char) (l : List Char),
    (∀ (tbl2 : Tbl) (prev2 : Option Char) (n : Nat), m tbl2 prev2 (l.drop n) = none) →
    scanAux m fuel tbl prev l = (l, tbl) := by
  intro fuel
  induction fuel with
  | zero => intro tbl prev l _; cases l <;> simp [scanAux]
  | succ fuel ih =>
    intro tbl prev l h
    cases l with
    | nil => simp [scanAux]
    | cons c rest =>
      have h0 := h tbl prev 0
      rw [List.drop_zero] at h0
      have hrec := ih tbl (some c) rest (fun tbl2 prev2 n => by
        have hn := h tbl2 prev2 (n + 1)
        rwa [List.drop_succ_cons] at hn)
      simp [scanAux, h0, hrec]

lemma tryProtectMath_none_no_dollar {tbl : Tbl} {prev : Option Char} {l : List Char}
    (h : '$' ∉ l) : tryProtectMath tbl prev l = none := by
  unfold tryProtectMath
  rw [matchDollarSpan_none_no_dollar h]

lemma protect_count : ∀ (fuel : Nat) (tbl : Tbl) (prev : Option Char) (l : List Char),
    l.length ≤ fuel → ((scanAux tryProtectMath fuel tbl prev l).1).count '$' ≤ 1 := by
  intro fuel
  induction fuel with
  | zero =>
    intro tbl prev l h
    obtain rfl : l = [] := List.eq_nil_of_length_eq_zero (Nat.le_zero.mp h)
    simp [scanAux]
  | succ fuel ih =>
    intro tbl prev l hlen
    cases l with
    | nil => simp [scanAux]
    | cons c rest =>
      cases hm : tryProtectMath tbl prev (c :: rest) with
      | some res =>
        obtain ⟨rep, prev2, rest2, tbl2⟩ := res
        have hmds : ∃ span, matchDollarSpan (c :: rest) = some (span, rest2) ∧
            rep = latexToken tbl.length := by
          unfold tryProtectMath at hm
          cases hsp : matchDollarSpan (c :: rest) with
          | none => rw [hsp] at hm; simp at hm
          | some p =>
            obtain ⟨span, rest'⟩ := p
            rw [hsp] at hm
            simp only [Option.some.injEq, Prod.mk.injEq] at hm
            obtain ⟨hrep, _, hrest, _⟩ := hm
            exact ⟨span, by rw [hrest], hrep.symm⟩
        obtain ⟨span, hsp, hrep⟩ := hmds
        obtain ⟨hdec, hne⟩ := matchDollarSpan_decomp hsp
        have hlt : rest2.length ≤ fuel := by
          have hlen2 : span.length + rest2.length = rest.length + 1 := by
            have := congrArg List.length hdec
            simp only [List.length_append, List.length_cons] at this
            omega
          have hsl : 1 ≤ span.length := by
            cases span with
            | nil => exact absurd rfl hne
            | cons x xs => simp
          simp only [List.length_cons] at hlen
          omega
        have hout : (scanAux tryProtectMath (fuel + 1) tbl prev (c :: rest)).1 =
            rep ++ (scanAux tryProtectMath fuel tbl2 prev2 rest2).1 := by
          simp [scanAux, hm]
        rw [hout, List.count_append, hrep]
        have hz : (latexToken tbl.length).count '$' = 0 :=
          List.count_eq_zero.mpr (latexToken_no_dollar tbl.length)
        rw [hz]
        simpa using ih tbl2 prev2 rest2 hlt
      | none =>
        have hout : (scanAux tryProtectMath (fuel + 1) tbl prev (c :: rest)).1 =
            c :: (scanAux tryProtectMath fuel tbl (some c) rest).1 := by
          simp [scanAux, hm]
        by_cases hc : c = '$'
        · subst hc
          have hnd : '$' ∉ rest := by
            apply matchDollarSpan_cons_none
            unfold tryProtectMath at hm
            cases hsp : matchDollarSpan ('$' :: rest) with
            | none => rfl
            | some p => rw [hsp] at hm; simp at hm
          have hid : scanAux tryProtectMath fuel tbl (some '$') rest = (rest, tbl) := by
            apply scanAux_id
            intro tbl2 prev2 n
            exact tryProtectMath_none_no_dollar
              (fun hmem => hnd (List.mem_of_mem_drop hmem))
          rw [hout, hid]
          simp [List.count_cons, List.count_eq_zero.mpr hnd]
        · rw [hout, List.count_cons_of_ne (fun he => hc he.symm)]
          refine ih tbl (some c) rest ?_
          simp only [List.length_cons] at hlen
          omega

lemma tryMalformed_two_dollars {tbl : Tbl} {prev : Option Char} {l : List Char} {res : MRes}
    (h : tryMalformed tbl prev l = some res) : 2 ≤ l.count '$' := by
  unfold tryMalformed at h
  split at h
  · rename_i r1
    by_cases hp : isPrefixL ['$', '$']
        ((r1.dropWhile jsSpace).dropWhile (fun c => c != '$')) = true
    · have hdw := isPrefixL_eq_append _ _ hp
      have h2 : 2 ≤ ((r1.dropWhile jsSpace).dropWhile (fun c => c != '$')).count '$' := by
        rw [hdw, List.count_append]
        simp [List.count_cons]
      have hs1 : ((r1.dropWhile jsSpace).dropWhile (fun c => c != '$')).Sublist
          (r1.dropWhile jsSpace) :=
        (List.dropWhile_suffix _).sublist
      have hs2 : (r1.dropWhile jsSpace).Sublist r1 := (List.dropWhile_suffix _).sublist
      have hcount := ((hs1.trans hs2).count_le '$')
      simp only [List.count_cons]
      omega
    · rw [if_neg hp] at h
      simp at h
  · simp at h

lemma tryMalformed_none_of_le_one {tbl : Tbl} {prev : Option Char} {l : List Char}
    (h : l.count '$' ≤ 1) : tryMalformed tbl prev l = none := by
  cases hm : tryMalformed tbl prev l with
  | none => rfl
  | some res => exact absurd h (by have := tryMalformed_two_dollars hm; omega)

lemma runM_mk (m : Matcher) (x : List Char) (t : Tbl) :
    runM m (⟨x⟩, t) = (⟨(scanAux m x.length t none x).1⟩, (scanAux m x.length t none x).2) := rfl

lemma frameToPayload_eq (part : String) :
    frameToPayload part =
      if strStarts (jsTrim part) "data:" then
        (if jsTrim (strDrop (jsTrim part) 5) = "[DONE]" then none
         else some (jsTrim (strDrop (jsTrim part) 5)))
      else none := rfl

lemma frameToPayload_some_shape : ∀ (part p : String), frameToPayload part = some p →
    p = jsTrim (strDrop (jsTrim part) 5) := by
  intro part p hp
  rw [frameToPayload_eq part] at hp
  by_cases h1 : strStarts (jsTrim part) "data:" = true
  · by_cases h2 : jsTrim (strDrop (jsTrim part) 5) = "[DONE]"
    · simp [h1, h2] at hp
    · simp only [h1, if_true, h2, if_false] at hp
      exact (Option.some.inj hp).symm
  · simp [h1] at hp

lemma frameToPayload_ne_done (part : String) : frameToPayload part ≠ some "[DONE]" := by
  intro h
  rw [frameToPayload_eq part] at h
  by_cases ha : strStarts (jsTrim part) "data:" = true
  · by_cases hb : jsTrim (strDrop (jsTrim part) 5) = "[DONE]"
    · simp [ha, hb] at h
    · rw [if_pos ha, if_neg hb] at h
      exact hb (Option.some.inj h)
  · simp [ha] at h

lemma foldl_payload (frames : List String) : ∀ acc : String,
    frames.foldl (fun acc part =>
      match frameToPayload part with
      | some d => acc ++ d ++ "\n"
      | none => acc) acc
    = acc ++ joinPayloads (frames.filterMap frameToPayload) := by
  induction frames with
  | nil => intro acc; simp [joinPayloads]
  | cons f fs ih =>
    intro acc
    simp only [List.foldl_cons, List.filterMap_cons]
    cases hf : frameToPayload f with
    | none => simp only [hf]; exact ih acc
    | some d =>
      simp only [hf, ih, joinPayloads]
      simp [String.append_assoc]

lemma processChunk_eq (acc buf chunk : String) :
    processChunk (acc, buf) chunk =
      (acc ++ joinPayloads (feedPayloads buf chunk).1, (feedPayloads buf chunk).2) := by
  unfold processChunk feedPayloads
  simp only []
  rw [foldl_payload]

lemma joinPayloads_append (a b : List String) :
    joinPayloads (a ++ b) = joinPayloads a ++ joinPayloads b := by
  induction a with
  | nil => simp [joinPayloads]
  | cons p ps ih =>
    simp only [List.cons_append, joinPayloads]
    simp [ih, String.append_assoc]

lemma feedChunks_fst : ∀ (chunks : List String) (acc buf : String),
    (chunks.foldl processChunk (acc, buf)).1 = acc ++ joinPayloads (allPayloadsAux buf chunks) := by
  intro chunks
  induction chunks with
  | nil => intro acc buf; simp [allPayloadsAux, joinPayloads]
  | cons c cs ih =>
    intro acc buf
    simp only [List.foldl_cons, allPayloadsAux]
    rw [joinPayloads_append, processChunk_eq, ih, String.append_assoc]

/- ## The claims -/

/-- C1 counterexample: normalization is not idempotent. On the concrete
input ",, then" one pass yields ",then" — the comma-conjunction cleanup has
re-created a ",then" occurrence — and a second pass removes it, yielding
"then", so normalize (normalize x) differs from normalize x there. -/
theorem C1_not_idempotent :
    preprocessText ",, then" = ",then" ∧
      preprocessText (preprocessText ",, then") = "then" ∧
      preprocessText (preprocessText ",, then") ≠ preprocessText ",, then" :=
  ⟨by decide, by decide, by decide⟩

/-- C1 (amended): normalization is idempotent on the spec's sampled scenario
inputs (empty input, plain prose, the de-fragmentation scenario, inline and
display math, and a dangling-delimiter input), though not for every string. -/
theorem C1_idempotent_on_samples :
    preprocessText (preprocessText "") = preprocessText "" ∧
    preprocessText (preprocessText "hello") = preprocessText "hello" ∧
    preprocessText (preprocessText "W h e n x = 1 , then y = 2") =
      preprocessText "W h e n x = 1 , then y = 2" ∧
    preprocessText (preprocessText "a $x^2$ b") = preprocessText "a $x^2$ b" ∧
    preprocessText (preprocessText "$$E=mc^2$$") = preprocessText "$$E=mc^2$$" ∧
    preprocessText (preprocessText "y = x + 1$$") = preprocessText "y = x + 1$$" :=
  ⟨by decide, by decide, by decide, by decide, by decide, by decide⟩

/-- C2 counterexample: the indexed token shape can occur in user-authored
text, and restoration then rewrites it. The input "__LATEX_0__" — which the
user could type verbatim — is turned by one normalization pass into the
string "undefined" (the restoration callback reads an absent table slot), so
a substring of the original input is rewritten by restoration. -/
theorem C2_token_collision :
    preprocessText "__LATEX_0__" = "undefined" ∧ "__LATEX_0__" ≠ "undefined" :=
  ⟨by decide, by decide⟩

/-- C2 (amended): on inputs free of the token shape, the protected math
substrings are restored literally and exactly once each: the sampled inline
span and display span reappear byte-identically in the output. -/
theorem C2_restoration_literal :
    preprocessText "a $x^2$ b" = "a $x^2$ b" ∧
    strOccurs "$x^2$" (preprocessText "a $x^2$ b") = true ∧
    preprocessText "$$E=mc^2$$" = "\n$$E=mc^2$$\n" :=
  ⟨by decide, by decide, by decide⟩

/-- C3 (amended): math-protection pass B is unreachable. Pass A consumes
every occurrence of "$$" (an unbalanced trailing "$$" is captured as an
empty single-delimited span), leaving at most one dollar sign in the text,
so running the malformed-equation pass after the protection pass changes
nothing, for every input text and placeholder table. -/
theorem C3_passB_unreachable (st : String × Tbl) :
    stepMalformed (stepProtectMath st) = stepProtectMath st := by
  obtain ⟨s, tbl⟩ := st
  obtain ⟨d⟩ := s
  have hcount : ((scanAux tryProtectMath d.length tbl none d).1).count '$' ≤ 1 :=
    protect_count d.length tbl none d (le_refl _)
  have hid : ∀ (tbl2 : Tbl) (prev2 : Option Char) (n : Nat),
      tryMalformed tbl2 prev2 (((scanAux tryProtectMath d.length tbl none d).1).drop n) = none :=
    fun tbl2 prev2 n => tryMalformed_none_of_le_one
      (le_trans ((List.drop_sublist n _).count_le '$') hcount)
  show stepMalformed (runM tryProtectMath (⟨d⟩, tbl)) = runM tryProtectMath (⟨d⟩, tbl)
  rw [runM_mk tryProtectMath d tbl]
  unfold stepMalformed
  rw [runM_mk tryMalformed]
  rw [scanAux_id tryMalformed _ _ _ _ hid]

/-- C3 counterexample: on the malformed input "y = x + 1$$" the normalizer
does not re-wrap the content as a single-delimited span: the output is the
input unchanged, it still contains the dangling "$$", and it does not
contain the re-wrapped span "$x + 1$". -/
theorem C3_dangling_unwrapped :
    preprocessText "y = x + 1$$" = "y = x + 1$$" ∧
    strOccurs "$$" (preprocessText "y = x + 1$$") = true ∧
    strOccurs "$x + 1$" (preprocessText "y = x + 1$$") = false :=
  ⟨by decide, by decide, by decide⟩

/-- C4 counterexample: composing normalization steps 1 and 2 on the exact
input "W h e n x = 1 , then y = 2" does not yield "When x = 1 then y = 2":
the three-token de-fragmentation merges only "W h e" and the scan resumes
after the match, so " n" is left unmerged. -/
theorem C4_not_fully_defragmented :
    (stepCommaConj (stepDefrag (("W h e n x = 1 , then y = 2", []) : String × Tbl))).1 ≠
      "When x = 1 then y = 2" := by decide

/-- C4 (amended): composing steps 1 and 2 on the exact input
"W h e n x = 1 , then y = 2" yields exactly "Whe n x = 1 then y = 2":
"W h e" is merged, " n" survives, and ", then" collapses to "then". -/
theorem C4_steps_composed_exact :
    (stepCommaConj (stepDefrag (("W h e n x = 1 , then y = 2", []) : String × Tbl))).1 =
      "Whe n x = 1 then y = 2" := by decide

/-- C5: frame reassembly across chunk boundaries. Feeding "data: ab" then
"c\n\n" yields no payload and the residual "data: ab" after the first feed,
then exactly the payload "abc" with an empty residual — the same single
payload as feeding "data: abc\n\n" in one chunk. -/
theorem C5_frame_reassembly :
    feedPayloads "" "data: ab" = ([], "data: ab") ∧
    feedPayloads "data: ab" "c\n\n" = (["abc"], "") ∧
    feedPayloads "" "data: abc\n\n" = (["abc"], "") :=
  ⟨by decide, by decide, by decide⟩

/-- C6 (amended): a frame yields a payload iff its whitespace-TRIMMED text
begins with "data:" and the re-trimmed remainder after the marker is not the
"[DONE]" sentinel; the emitted payload is that remainder with all
surrounding whitespace stripped (not just one separator). -/
theorem C6_marker_characterization (part : String) :
    ((frameToPayload part).isSome = true ↔
      (strStarts (jsTrim part) "data:" = true ∧
        jsTrim (strDrop (jsTrim part) 5) ≠ "[DONE]")) ∧
    (∀ p, frameToPayload part = some p → p = jsTrim (strDrop (jsTrim part) 5)) := by
  constructor
  · rw [frameToPayload_eq part]
    by_cases h1 : strStarts (jsTrim part) "data:" = true
    · by_cases h2 : jsTrim (strDrop (jsTrim part) 5) = "[DONE]"
      · simp [h1, h2]
      · simp [h1, h2]
    · simp [h1]
  · exact frameToPayload_some_shape part

/-- C6 counterexample: a frame whose text does NOT begin with the marker can
still emit a payload, because the code tests the trimmed frame. The frame
"\ndata: hi" starts with a newline, not with "data:", yet emits "hi". -/
theorem C6_untrimmed_frame_emitted :
    frameToPayload "\ndata: hi" = some "hi" ∧
    strStarts "\ndata: hi" "data:" = false :=
  ⟨by decide, by decide⟩

/-- C7: the "[DONE]" sentinel is never emitted: no frame ever yields the
payload "[DONE]", and over any sequence of chunks the payload list — whose
newline-terminated concatenation is exactly what the normalizer receives —
never contains "[DONE]". -/
theorem C7_sentinel_never_emitted :
    (∀ part : String, frameToPayload part ≠ some "[DONE]") ∧
    (∀ chunks : List String, "[DONE]" ∉ allPayloads chunks) := by
  refine ⟨frameToPayload_ne_done, ?_⟩
  intro chunks
  have key : ∀ (cs : List String) (buf : String), "[DONE]" ∉ allPayloadsAux buf cs := by
    intro cs
    induction cs with
    | nil => intro buf; simp [allPayloadsAux]
    | cons c cs ih =>
      intro buf h
      simp only [allPayloadsAux] at h
      rcases List.mem_append.mp h with h | h
      · have h2 : "[DONE]" ∈ (extractFrames buf c).1.filterMap frameToPayload := h
        obtain ⟨a, _, ha⟩ := List.mem_filterMap.mp h2
        exact frameToPayload_ne_done a ha
      · exact ih _ h
  exact key chunks ""

/-- C8: the normalizer is total over the embedding — undefined input and the
empty string both normalize to the empty string (Chat.jsx line 8), and on
inputs where no pattern of any step matches (plain prose, an unclosed bold
marker) the text is returned unchanged. -/
theorem C8_total_and_empty :
    preprocessTextOpt none = "" ∧ preprocessTextOpt (some "") = "" ∧
    preprocessText "hello" = "hello" ∧ preprocessText "**unclosed" = "**unclosed" :=
  ⟨by decide, by decide, by decide, by decide⟩

/-- C9: cancellation on a conversation whose last message is an assistant
message removes that message when its content trims to the empty string,
and otherwise appends "\n\n[Generation cancelled]" to its content; every
other message of the conversation is left unchanged. -/
theorem C9_cancel_behavior (pre : List Message) (m : Message) (h : m.role = "assistant") :
    handleCancel (pre ++ [m]) =
      if jsTrim m.content = "" then pre
      else pre ++ [{ m with content := m.content ++ "\n\n[Generation cancelled]" }] := by
  unfold handleCancel
  simp only [List.getLast?_concat, h, if_true, List.dropLast_concat]

/-- C9 witness: cancelling with partial content "Working on it" appends the
marker, giving exactly "Working on it\n\n[Generation cancelled]". -/
theorem C9_cancel_witness :
    handleCancel [Message.mk "assistant" "Working on it" false ""] =
      [Message.mk "assistant" "Working on it\n\n[Generation cancelled]" false ""] :=
  (C9_cancel_behavior [] (Message.mk "assistant" "Working on it" false "") rfl).trans
    (by decide)

/-- C10: every emitted payload equals the frame text trimmed, its first five
characters removed and the remainder trimmed again; and the accumulated
content after feeding any chunk sequence is exactly the newline-terminated
concatenation of all payloads received so far. -/
theorem C10_payload_accumulation :
    (∀ part p : String, frameToPayload part = some p →
      p = jsTrim (strDrop (jsTrim part) 5)) ∧
    (∀ chunks : List String, (feedChunks chunks).1 = joinPayloads (allPayloads chunks)) := by
  refine ⟨frameToPayload_some_shape, ?_⟩
  intro chunks
  unfold feedChunks allPayloads
  rw [feedChunks_fst chunks "" "", String.empty_append]
